import Mathlib

/-!
Verification of the SmartPathAI Oracle 11g dialect adapter and model helpers.

This file shallowly embeds, in Lean, the pure logic of:
  * `backend/core/oracle_legacy_backend/base.py` — `_rewrite_fetch_first`
    and the `OracleCursorWrapper.execute` / `executemany` forwarding;
  * `backend/core/oracle_legacy_backend/schema.py` — the MD5-based
    sequence/trigger name derivation and the autoincrement DDL generation,
    together with a small abstract model of the Oracle DDL semantics the
    emitted PL/SQL blocks rely on;
  * `backend/core/models.py` — `_json_loads` and the `UserProfile`
    JSON-blob getters, with `json.loads` treated as an abstract parser.

SQL statements are modelled as `List Char`.  The Python regexes used by
`_rewrite_fetch_first` are fixed patterns, so each is embedded as a
dedicated scanning function with Python `re.search` leftmost-match
semantics, ASCII case folding for `re.IGNORECASE`, ASCII `\d`, `\w`, `\s`
character classes and ASCII word boundaries for `\b` (the repository only
ever feeds ASCII SQL through this path).
-/

/-- ASCII word character, Python regex `\w` (`[A-Za-z0-9_]`). -/
def isWordChar (c : Char) : Bool :=
  c.isAlpha || c.isDigit || c == '_'

/-- ASCII whitespace, Python regex `\s` / `str.isspace` on ASCII text. -/
def isSpaceChar (c : Char) : Bool :=
  c == ' ' || c == '\t' || c == '\n' || c == '\x0d' || c == '\x0b' || c == '\x0c'

/-- Character class of the regex group `[\w\".]` in the `FROM` pattern of
`_rewrite_fetch_first`. -/
def isFromTableChar (c : Char) : Bool :=
  isWordChar c || c == '"' || c == '.'

/-- Case-insensitive literal match (Python `re.IGNORECASE` on ASCII):
if `cs` starts with `pat` up to ASCII case, return the remainder. -/
def matchLiteralCI : List Char → List Char → Option (List Char)
  | [], cs => some cs
  | _ :: _, [] => none
  | p :: ps, c :: cs => if p.toLower == c.toLower then matchLiteralCI ps cs else none

/-- Python `str.rstrip()` on ASCII text: drop trailing whitespace. -/
def rstrip (cs : List Char) : List Char :=
  (cs.reverse.dropWhile isSpaceChar).reverse

/-- Word boundary `\b` holding just before the current position, given the
previous character (`none` at the start of the string), for a position whose
next character is a word character. -/
def boundaryBefore (prev : Option Char) : Bool :=
  match prev with
  | none => true
  | some p => !isWordChar p

/-- Word boundary `\b` holding just after a word character, looking at the
rest of the string. -/
def boundaryAfter : List Char → Bool
  | [] => true
  | c :: _ => !isWordChar c

/-- Attempt to match `FETCH FIRST (\d+) ROWS ONLY` (case-insensitive)
anchored at the head of `cs`.  On success, return the digit group together
with the remainder of the string after the whole match.  `\d+` is forced to
its maximal munch because the following pattern character is a space. -/
def matchFetchAt (cs : List Char) : Option (List Char × List Char) :=
  match matchLiteralCI "FETCH FIRST ".toList cs with
  | none => none
  | some rest =>
    let digits := rest.takeWhile Char.isDigit
    let rest1 := rest.dropWhile Char.isDigit
    if digits.isEmpty then none
    else
      match matchLiteralCI " ROWS ONLY".toList rest1 with
      | none => none
      | some rest2 => some (digits, rest2)

/-- `re.search(r"FETCH FIRST (\d+) ROWS ONLY", sql, re.IGNORECASE)`:
leftmost match, decomposed as `(prefix, digit group, suffix)` where the
input is `prefix ++ <matched clause> ++ suffix`. -/
def findFetchFirst : List Char → Option (List Char × List Char × List Char)
  | [] => none
  | c :: cs =>
    match matchFetchAt (c :: cs) with
    | some (digits, suf) => some ([], digits, suf)
    | none =>
      match findFetchFirst cs with
      | some (pre, digits, suf) => some (c :: pre, digits, suf)
      | none => none

/-- Attempt to match `\bORDER\s+BY\b` (case-insensitive) anchored at the
head of `cs`, `prev` being the character just before `cs`. -/
def matchOrderByAt (prev : Option Char) (cs : List Char) : Bool :=
  boundaryBefore prev &&
  match matchLiteralCI "ORDER".toList cs with
  | none => false
  | some rest =>
    let ws := rest.takeWhile isSpaceChar
    let rest1 := rest.dropWhile isSpaceChar
    !ws.isEmpty &&
    match matchLiteralCI "BY".toList rest1 with
    | none => false
    | some rest2 => boundaryAfter rest2

/-- Scan for `\bORDER\s+BY\b` from the current position onwards. -/
def containsOrderByAux (prev : Option Char) : List Char → Bool
  | [] => false
  | c :: cs => matchOrderByAt prev (c :: cs) || containsOrderByAux (some c) cs

/-- `re.search(r"\bORDER\s+BY\b", sql, re.IGNORECASE)` as a Boolean. -/
def containsOrderBy (cs : List Char) : Bool :=
  containsOrderByAux none cs

/-- Attempt to match `\bWHERE\b` (case-insensitive) anchored at the head of
`cs`. -/
def matchWhereAt (prev : Option Char) (cs : List Char) : Bool :=
  boundaryBefore prev &&
  match matchLiteralCI "WHERE".toList cs with
  | none => false
  | some rest => boundaryAfter rest

/-- Scan for `\bWHERE\b` from the current position onwards. -/
def containsWhereAux (prev : Option Char) : List Char → Bool
  | [] => false
  | c :: cs => matchWhereAt prev (c :: cs) || containsWhereAux (some c) cs

/-- `re.search(r"\bWHERE\b", sql, re.IGNORECASE)` as a Boolean. -/
def containsWhere (cs : List Char) : Bool :=
  containsWhereAux none cs

/-- The replacement text `WHERE ROWNUM <= {limit} AND` used by the
`re.sub` call of `_rewrite_fetch_first`. -/
def whereInject (limit : List Char) : List Char :=
  "WHERE ROWNUM <= ".toList ++ limit ++ " AND".toList

/-- `re.sub(r"\bWHERE\b", f"WHERE ROWNUM <= {limit} AND", sql, count=1,
flags=re.IGNORECASE)`, returning `none` when no match exists (in the Python
code `re.sub` then returns the input unchanged; the caller distinguishes the
two situations with a prior `re.search`, and so do we). -/
def subWhereAux (limit : List Char) (prev : Option Char) : List Char → Option (List Char)
  | [] => none
  | c :: cs =>
    if matchWhereAt prev (c :: cs) then
      some (whereInject limit ++ (c :: cs).drop 5)
    else
      match subWhereAux limit (some c) cs with
      | some out => some (c :: out)
      | none => none

/-- First-match `re.sub` on `\bWHERE\b`, from the start of the string. -/
def subWhere (limit : List Char) (cs : List Char) : Option (List Char) :=
  subWhereAux limit none cs

/-- Attempt to match `\bFROM\s+([\w\".]+)` (case-insensitive) anchored at
the head of `cs`; on success return the length of the whole match.  Both
`\s+` and `[\w\".]+` are forced to their maximal munches because the two
character classes are disjoint. -/
def matchFromAt (prev : Option Char) (cs : List Char) : Option Nat :=
  if !boundaryBefore prev then none
  else
    match matchLiteralCI "FROM".toList cs with
    | none => none
    | some rest =>
      let ws := rest.takeWhile isSpaceChar
      let rest1 := rest.dropWhile isSpaceChar
      if ws.isEmpty then none
      else
        let tbl := rest1.takeWhile isFromTableChar
        if tbl.isEmpty then none
        else some (4 + ws.length + tbl.length)

/-- Locate the leftmost `\bFROM\s+([\w\".]+)` match and insert
` WHERE ROWNUM <= {limit}` at `match.end()`, i.e. right after the table
reference; `none` when no match exists. -/
def injectAfterFromAux (limit : List Char) (prev : Option Char) : List Char → Option (List Char)
  | [] => none
  | c :: cs =>
    match matchFromAt prev (c :: cs) with
    | some len =>
        some ((c :: cs).take len ++ " WHERE ROWNUM <= ".toList ++ limit ++ (c :: cs).drop len)
    | none =>
      match injectAfterFromAux limit (some c) cs with
      | some out => some (c :: out)
      | none => none

/-- `FROM`-clause injection from the start of the string. -/
def injectAfterFrom (limit : List Char) (cs : List Char) : Option (List Char) :=
  injectAfterFromAux limit none cs

/-- The `ORDER BY` wrapping `SELECT * FROM ({sql}) WHERE ROWNUM <= {limit}`. -/
def orderByWrap (limit : List Char) (sql1 : List Char) : List Char :=
  "SELECT * FROM (".toList ++ sql1 ++ ") WHERE ROWNUM <= ".toList ++ limit

/-- `_rewrite_fetch_first` from
`backend/core/oracle_legacy_backend/base.py`, on the string case
(`isinstance(sql, str)`; non-string inputs are returned unchanged by the
Python code and are outside this model). -/
def rewriteFetchFirst (sql : List Char) : List Char :=
  match findFetchFirst sql with
  | none => sql
  | some (pre, limit, suf) =>
    let sql1 := rstrip pre ++ suf
    if containsOrderBy sql1 then
      orderByWrap limit sql1
    else
      match subWhere limit sql1 with
      | some out => out
      | none =>
        match injectAfterFrom limit sql1 with
        | some out => out
        | none => sql1

/-- `_rewrite_fetch_first` at the `String` level. -/
def rewriteFetchFirstStr (sql : String) : String :=
  String.mk (rewriteFetchFirst sql.toList)

/-!
## MD5 and the sequence/trigger name derivation

`_sequence_and_trigger_names` in
`backend/core/oracle_legacy_backend/schema.py` hashes the UTF-8 encoding of
`f"{table_name}:{column_name}"` with MD5, takes the first 10 characters of
the lowercase hex digest and uppercases them.  MD5 is implemented below
over `Nat` with explicit reduction modulo `2^32` (RFC 1321).
-/

/-- `2^32`, the word modulus of MD5. -/
def M32 : Nat := 4294967296

/-- Addition modulo `2^32`. -/
def add32 (a b : Nat) : Nat := (a + b) % M32

/-- Left rotation of a 32-bit word by `s` places. -/
def rotl32 (x s : Nat) : Nat := ((x <<< s) % M32) ||| (x >>> (32 - s))

/-- MD5 auxiliary function `F(b,c,d) = (b ∧ c) ∨ (¬b ∧ d)`. -/
def md5F (b c d : Nat) : Nat := (b &&& c) ||| ((b ^^^ 4294967295) &&& d)

/-- MD5 auxiliary function `G(b,c,d) = (b ∧ d) ∨ (c ∧ ¬d)`. -/
def md5G (b c d : Nat) : Nat := (b &&& d) ||| (c &&& (d ^^^ 4294967295))

/-- MD5 auxiliary function `H(b,c,d) = b ⊕ c ⊕ d`. -/
def md5H (b c d : Nat) : Nat := b ^^^ c ^^^ d

/-- MD5 auxiliary function `I(b,c,d) = c ⊕ (b ∨ ¬d)`. -/
def md5I (b c d : Nat) : Nat := c ^^^ (b ||| (d ^^^ 4294967295))

/-- The 64 MD5 sine-derived round constants `⌊|sin(i+1)| · 2^32⌋`. -/
def md5K : List Nat :=
  [0xd76aa478, 0xe8c7b756, 0x242070db, 0xc1bdceee, 0xf57c0faf, 0x4787c62a, 0xa8304613, 0xfd469501,
   0x698098d8, 0x8b44f7af, 0xffff5bb1, 0x895cd7be, 0x6b901122, 0xfd987193, 0xa679438e, 0x49b40821,
   0xf61e2562, 0xc040b340, 0x265e5a51, 0xe9b6c7aa, 0xd62f105d, 0x02441453, 0xd8a1e681, 0xe7d3fbc8,
   0x21e1cde6, 0xc33707d6, 0xf4d50d87, 0x455a14ed, 0xa9e3e905, 0xfcefa3f8, 0x676f02d9, 0x8d2a4c8a,
   0xfffa3942, 0x8771f681, 0x6d9d6122, 0xfde5380c, 0xa4beea44, 0x4bdecfa9, 0xf6bb4b60, 0xbebfbc70,
   0x289b7ec6, 0xeaa127fa, 0xd4ef3085, 0x04881d05, 0xd9d4d039, 0xe6db99e5, 0x1fa27cf8, 0xc4ac5665,
   0xf4292244, 0x432aff97, 0xab9423a7, 0xfc93a039, 0x655b59c3, 0x8f0ccc92, 0xffeff47d, 0x85845dd1,
   0x6fa87e4f, 0xfe2ce6e0, 0xa3014314, 0x4e0811a1, 0xf7537e82, 0xbd3af235, 0x2ad7d2bb, 0xeb86d391]

/-- The 64 MD5 per-round left-rotation amounts. -/
def md5S : List Nat :=
  [7, 12, 17, 22, 7, 12, 17, 22, 7, 12, 17, 22, 7, 12, 17, 22,
   5, 9, 14, 20, 5, 9, 14, 20, 5, 9, 14, 20, 5, 9, 14, 20,
   4, 11, 16, 23, 4, 11, 16, 23, 4, 11, 16, 23, 4, 11, 16, 23,
   6, 10, 15, 21, 6, 10, 15, 21, 6, 10, 15, 21, 6, 10, 15, 21]

/-- One MD5 operation (round `i` of 64) on the state `(a, b, c, d)` with
message words `m`. -/
def md5Round (m : List Nat) (st : Nat × Nat × Nat × Nat) (i : Nat) : Nat × Nat × Nat × Nat :=
  let a := st.1
  let b := st.2.1
  let c := st.2.2.1
  let d := st.2.2.2
  let f :=
    if i < 16 then md5F b c d
    else if i < 32 then md5G b c d
    else if i < 48 then md5H b c d
    else md5I b c d
  let g :=
    if i < 16 then i
    else if i < 32 then (5 * i + 1) % 16
    else if i < 48 then (3 * i + 5) % 16
    else (7 * i) % 16
  let x := add32 (add32 (add32 f a) (md5K.getD i 0)) (m.getD g 0)
  (d, add32 b (rotl32 x (md5S.getD i 0)), b, c)

/-- Compress one 16-word chunk into the running state. -/
def md5Compress (st : Nat × Nat × Nat × Nat) (m : List Nat) : Nat × Nat × Nat × Nat :=
  let r := (List.range 64).foldl (md5Round m) st
  (add32 st.1 r.1, add32 st.2.1 r.2.1, add32 st.2.2.1 r.2.2.1, add32 st.2.2.2 r.2.2.2)

/-- A little-endian 32-bit word from four bytes. -/
def leWord (b0 b1 b2 b3 : Nat) : Nat :=
  b0 + 256 * b1 + 65536 * b2 + 16777216 * b3

/-- Group a byte list into little-endian 32-bit words. -/
def toWords : List Nat → List Nat
  | b0 :: b1 :: b2 :: b3 :: rest => leWord b0 b1 b2 b3 :: toWords rest
  | _ => []

/-- The four little-endian bytes of a 32-bit word. -/
def le32 (n : Nat) : List Nat :=
  [n % 256, n / 256 % 256, n / 65536 % 256, n / 16777216 % 256]

/-- The eight little-endian bytes of a 64-bit length field. -/
def le64 (n : Nat) : List Nat :=
  [n % 256, n / 256 % 256, n / 65536 % 256, n / 16777216 % 256,
   n / 4294967296 % 256, n / 1099511627776 % 256,
   n / 281474976710656 % 256, n / 72057594037927936 % 256]

/-- MD5 padding: a `0x80` byte, zeros up to 56 mod 64, then the original
bit length as a little-endian 64-bit field. -/
def md5Pad (msg : List Nat) : List Nat :=
  let len := msg.length
  let zeros := (120 - (len + 1) % 64) % 64
  msg ++ [128] ++ List.replicate zeros 0 ++ le64 (len * 8 % 18446744073709551616)

/-- Process `fuel` chunks of 64 bytes (structural fuel equals the exact
chunk count at every call site, since padded input is a multiple of 64
bytes long). -/
def md5ProcessAux : Nat → Nat × Nat × Nat × Nat → List Nat → Nat × Nat × Nat × Nat
  | 0, st, _ => st
  | _ + 1, st, [] => st
  | fuel + 1, st, bytes => md5ProcessAux fuel (md5Compress st (toWords (bytes.take 64))) (bytes.drop 64)

/-- The MD5 initial state. -/
def md5Init : Nat × Nat × Nat × Nat := (0x67452301, 0xefcdab89, 0x98badcfe, 0x10325476)

/-- MD5 of a byte string, as its 16 digest bytes. -/
def md5Bytes (msg : List Nat) : List Nat :=
  let padded := md5Pad msg
  let st := md5ProcessAux (padded.length / 64) md5Init padded
  le32 st.1 ++ le32 st.2.1 ++ le32 st.2.2.1 ++ le32 st.2.2.2

/-- The lowercase hex digit for `n % 16`, as produced by `hexdigest()`. -/
def hexDigit (n : Nat) : Char :=
  let m := n % 16
  if m < 10 then Char.ofNat (48 + m) else Char.ofNat (87 + m)

/-- Lowercase hex rendering of a byte string (`hashlib.md5(..).hexdigest()`). -/
def bytesToHex : List Nat → List Char
  | [] => []
  | b :: bs => hexDigit (b / 16) :: hexDigit b :: bytesToHex bs

/-- UTF-8 encoding of one character (`str.encode("utf-8")` per character). -/
def utf8EncodeChar (c : Char) : List Nat :=
  let n := c.toNat
  if n < 128 then [n]
  else if n < 2048 then [192 + n / 64, 128 + n % 64]
  else if n < 65536 then [224 + n / 4096, 128 + n / 64 % 64, 128 + n % 64]
  else [240 + n / 262144, 128 + n / 4096 % 64, 128 + n / 64 % 64, 128 + n % 64]

/-- UTF-8 encoding of a string as a byte list. -/
def utf8Encode (s : String) : List Nat :=
  s.toList.foldr (fun c acc => utf8EncodeChar c ++ acc) []

/-- The shared 10-character uppercase hash suffix of
`_sequence_and_trigger_names`:
`hashlib.md5(f"{table}:{column}".encode("utf-8")).hexdigest()[:10].upper()`. -/
def nameSuffix (table column : String) : String :=
  String.mk (((bytesToHex (md5Bytes (utf8Encode (table ++ ":" ++ column)))).take 10).map Char.toUpper)

/-- `_sequence_and_trigger_names` from
`backend/core/oracle_legacy_backend/schema.py`: the `(sequence, trigger)`
name pair for a table/column. -/
def sequenceAndTriggerNames (table column : String) : String × String :=
  let suffix := nameSuffix table column
  ("SQ_" ++ suffix, "TR_" ++ suffix)

/-- An uppercase hexadecimal character. -/
def isUpperHexChar (c : Char) : Bool :=
  c.isDigit || (65 ≤ c.toNat && c.toNat ≤ 70)

/-!
## Autoincrement DDL and an abstract Oracle catalog model

`_create_legacy_autoincrement` / `_drop_legacy_autoincrement` emit PL/SQL
blocks.  The blocks' effects are verified against a small model of the
Oracle DDL semantics they rely on: the catalog is the set of existing
sequence and trigger names, `CREATE SEQUENCE` fails with ORA-00955 when the
name exists, `DROP TRIGGER` / `DROP SEQUENCE` fail with ORA-04080 /
ORA-02289 when the object is absent, and `CREATE OR REPLACE TRIGGER` never
fails on existence.  The guard `IF seq_count = 0` and the exception filters
`IF SQLCODE != -4080 / -2289 THEN RAISE` are taken from the emitted block
texts in `schema.py`.
-/

/-- Models Django's Oracle `quote_name` for plain identifiers (not already
quoted, within the identifier length limit, `%`-free): wrap in double
quotes and uppercase. -/
def quoteName (s : String) : String := "\"" ++ s.toUpper ++ "\""

/-- The `CREATE OR REPLACE TRIGGER` statement emitted by
`_create_legacy_autoincrement` (the f-string of `schema.py`, lines 55-65,
with its literal segments split at the phrase boundaries used by the
theorems; their concatenation is the exact f-string text). -/
def createTriggerSQL (table column : String) : List Char :=
  "\n            ".toList
    ++ "CREATE OR REPLACE TRIGGER ".toList
    ++ (quoteName (sequenceAndTriggerNames table column).2).toList
    ++ "\n            ".toList
    ++ "BEFORE INSERT ON ".toList
    ++ (quoteName table).toList
    ++ "\n            ".toList
    ++ "FOR EACH ROW".toList
    ++ "\n            ".toList
    ++ "WHEN (new.".toList
    ++ column.toList
    ++ " IS NULL)".toList
    ++ "\n            BEGIN\n                ".toList
    ++ "SELECT ".toList
    ++ (quoteName (sequenceAndTriggerNames table column).1).toList
    ++ ".NEXTVAL INTO :new.".toList
    ++ (quoteName column).toList
    ++ " FROM dual;".toList
    ++ "\n            END;\n            ".toList

/-- Abstract Oracle catalog: the names of the existing sequences and
triggers. -/
structure OracleState where
  sequences : List String
  triggers : List String
deriving DecidableEq

/-- Oracle `CREATE SEQUENCE`: ORA-00955 when the name is already used. -/
def ddlCreateSequence (st : OracleState) (name : String) : Except Int OracleState :=
  if name ∈ st.sequences then Except.error (-955)
  else Except.ok { st with sequences := name :: st.sequences }

/-- Oracle `CREATE OR REPLACE TRIGGER`: succeeds whether or not the trigger
already exists. -/
def ddlCreateOrReplaceTrigger (st : OracleState) (name : String) : Except Int OracleState :=
  Except.ok { st with triggers := if name ∈ st.triggers then st.triggers else name :: st.triggers }

/-- Oracle `DROP TRIGGER`: ORA-04080 when the trigger does not exist. -/
def ddlDropTrigger (st : OracleState) (name : String) : Except Int OracleState :=
  if name ∈ st.triggers then Except.ok { st with triggers := st.triggers.erase name }
  else Except.error (-4080)

/-- Oracle `DROP SEQUENCE`: ORA-02289 when the sequence does not exist. -/
def ddlDropSequence (st : OracleState) (name : String) : Except Int OracleState :=
  if name ∈ st.sequences then Except.ok { st with sequences := st.sequences.erase name }
  else Except.error (-2289)

/-- The exception filter of the PL/SQL blocks emitted by
`_drop_legacy_autoincrement`: `EXCEPTION WHEN OTHERS THEN IF SQLCODE !=
code THEN RAISE` — swallow exactly `code`, re-raise every other error,
leaving the state as it was before the failed statement. -/
def suppressCode (code : Int) (fallback : OracleState) :
    Except Int OracleState → Except Int OracleState
  | Except.ok st => Except.ok st
  | Except.error e => if e ≠ code then Except.error e else Except.ok fallback

/-- `_create_legacy_autoincrement`: run the existence-guarded sequence
creation block, then the `CREATE OR REPLACE TRIGGER` statement. -/
def createLegacyAutoincrement (st : OracleState) (table column : String) :
    Except Int OracleState := do
  let names := sequenceAndTriggerNames table column
  let st1 ← if names.1 ∈ st.sequences then Except.ok st else ddlCreateSequence st names.1
  ddlCreateOrReplaceTrigger st1 names.2

/-- `_drop_legacy_autoincrement`: drop the trigger tolerating ORA-04080,
then drop the sequence tolerating ORA-02289. -/
def dropLegacyAutoincrement (st : OracleState) (table column : String) :
    Except Int OracleState := do
  let names := sequenceAndTriggerNames table column
  let st1 ← suppressCode (-4080) st (ddlDropTrigger st names.2)
  suppressCode (-2289) st1 (ddlDropSequence st1 names.1)

/-- A `create` immediately followed by a `drop` for the same table/column. -/
def createThenDrop (st : OracleState) (table column : String) : Except Int OracleState := do
  let st1 ← createLegacyAutoincrement st table column
  dropLegacyAutoincrement st1 table column

/-- The create-then-drop pair repeated twice in succession. -/
def createDropTwice (st : OracleState) (table column : String) : Except Int OracleState := do
  let st1 ← createThenDrop st table column
  createThenDrop st1 table column

/-!
## Cursor forwarding and bind placeholders

`OracleCursorWrapper.execute(sql, params)` calls
`self.cursor.execute(_rewrite_fetch_first(sql), params)`; `executemany`
likewise.  The pair actually handed to the wrapped driver cursor is
modelled as the return value.  The SQL reaching this wrapper still carries
Django's positional `%s` placeholders (the wrapped
`FormatStylePlaceholderCursor` converts them later), so bind placeholders
are the occurrences of the two-character pattern `%s`.
-/

/-- `OracleCursorWrapper.execute`: the statement/parameters pair forwarded
to the wrapped driver cursor (`params = none` models the Python `None`
default, in which case the driver is called without a parameter
argument). -/
def OracleCursorWrapper.execute {α : Type} (sql : List Char) (params : Option (List α)) :
    List Char × Option (List α) :=
  (rewriteFetchFirst sql, params)

/-- `OracleCursorWrapper.executemany`: the statement/parameter-list pair
forwarded to the wrapped driver cursor. -/
def OracleCursorWrapper.executemany {α : Type} (sql : List Char) (paramList : List (List α)) :
    List Char × List (List α) :=
  (rewriteFetchFirst sql, paramList)

/-- The number of `%s` bind placeholders in a statement: the number of
positions followed immediately by the two characters `%`, `s`. -/
def countPS : List Char → Nat
  | a :: b :: rest => (if a = '%' ∧ b = 's' then 1 else 0) + countPS (b :: rest)
  | _ => 0

/-- The placeholder fragment created at the junction when two strings are
concatenated: `1` exactly when the left part ends in `%` and the right part
starts with `s`. -/
def psJunction (xs ys : List Char) : Nat :=
  if xs.getLast? = some '%' ∧ ys.head? = some 's' then 1 else 0

/-!
## `UserProfile` JSON-blob getters

`_json_loads` from `backend/core/models.py`.  `json.loads` is external
library code, so it is modelled as an arbitrary parser outcome: either a
raised decoding error or a parsed Python value.  The wrapper is verified
for every such parser.
-/

/-- Python values that `json.loads` can produce. -/
inductive PyJson where
  | null
  | boolean (b : Bool)
  | intVal (n : Int)
  | floatVal (mantissa exponent : Int)
  | strVal (s : String)
  | listVal (items : List PyJson)
  | dictVal (entries : List (String × PyJson))

/-- Python runtime types relevant to `isinstance(parsed, type(fallback))`. -/
inductive PyType where
  | noneType
  | boolType
  | intType
  | floatType
  | strType
  | listType
  | dictType
deriving DecidableEq

/-- `type(v)` for a JSON-produced Python value. -/
def pyTypeOf : PyJson → PyType
  | PyJson.null => PyType.noneType
  | PyJson.boolean _ => PyType.boolType
  | PyJson.intVal _ => PyType.intType
  | PyJson.floatVal _ _ => PyType.floatType
  | PyJson.strVal _ => PyType.strType
  | PyJson.listVal _ => PyType.listType
  | PyJson.dictVal _ => PyType.dictType

/-- An abstract `json.loads`: maps the input text to a raised error
(`JSONDecodeError`/`TypeError`, both caught by `_json_loads`) or a parsed
value. -/
def JsonParser : Type := String → Except Unit PyJson

/-- Python `raw or ""` on an optional text field: `None` and the empty
string are falsy and collapse to `""`. -/
def rawOrEmpty : Option String → String
  | Option.none => ""
  | Option.some r => if r = "" then "" else r

/-- `_json_loads(raw, fallback)` from `backend/core/models.py`: parse
`raw or ""`, return the parsed value when it is an instance of the
fallback's type, the fallback otherwise or on a caught parse error. -/
def json_loads (loads : JsonParser) (raw : Option String) (fallback : PyJson) : PyJson :=
  match loads (rawOrEmpty raw) with
  | Except.error _ => fallback
  | Except.ok parsed => if pyTypeOf parsed = pyTypeOf fallback then parsed else fallback

/-- The stored text fields of a `UserProfile` row that back the JSON-blob
getters (`Option String` models SQL NULL next to ordinary text). -/
structure UserProfile where
  name : String
  email : String
  password : String
  interests_data : Option String
  preferences_data : Option String
  performance_data : Option String
  completed_courses_data : Option String
  earned_certifications_data : Option String

/-- The default of `get_preferences`. -/
def preferencesDefault : PyJson :=
  PyJson.dictVal [("pace", PyJson.strVal "Moderate"), ("content_format", PyJson.strVal "Video")]

/-- The default of `get_performance`. -/
def performanceDefault : PyJson :=
  PyJson.dictVal
    [("learning_hours", PyJson.intVal 0), ("average_score", PyJson.intVal 0),
     ("skills_mastered", PyJson.intVal 0), ("recent_activity", PyJson.listVal []),
     ("skill_progress", PyJson.listVal [])]

/-- `UserProfile.get_interests`. -/
def UserProfile.get_interests (loads : JsonParser) (p : UserProfile) : PyJson :=
  json_loads loads p.interests_data (PyJson.listVal [])

/-- `UserProfile.get_preferences`. -/
def UserProfile.get_preferences (loads : JsonParser) (p : UserProfile) : PyJson :=
  json_loads loads p.preferences_data preferencesDefault

/-- `UserProfile.get_performance`. -/
def UserProfile.get_performance (loads : JsonParser) (p : UserProfile) : PyJson :=
  json_loads loads p.performance_data performanceDefault

/-- `UserProfile.get_completed_courses`. -/
def UserProfile.get_completed_courses (loads : JsonParser) (p : UserProfile) : PyJson :=
  json_loads loads p.completed_courses_data (PyJson.listVal [])

/-- `UserProfile.get_earned_certifications`. -/
def UserProfile.get_earned_certifications (loads : JsonParser) (p : UserProfile) : PyJson :=
  json_loads loads p.earned_certifications_data (PyJson.listVal [])

/-- Models Oracle's execution of the emitted `BEFORE INSERT ... FOR EACH
ROW` trigger on one inserted row value: the `WHEN (new.col IS NULL)` guard
admits the body — which assigns `sequence.NEXTVAL` — only when the
inserted value is null; otherwise the supplied value is left untouched. -/
def triggerAssign (nextval : Int) (supplied : Option Int) : Option Int :=
  match supplied with
  | Option.none => some nextval
  | Option.some v => some v

/-!
## Helper lemmas
-/

/-- The last character of `prev ++ a` seen as an optional previous
character: `prev` when `a` is empty, the last element of `a` otherwise. -/
def lastOr (prev : Option Char) : List Char → Option Char
  | [] => prev
  | c :: cs => lastOr (some c) cs

theorem getLast?_mem_list {l : List Char} {a : Char} (h : l.getLast? = some a) : a ∈ l := by
  induction l with
  | nil => simp at h
  | cons c cs ih =>
    cases cs with
    | nil => simp_all
    | cons d ds =>
      rw [List.getLast?_cons_cons] at h
      exact List.mem_cons_of_mem _ (ih h)

theorem matchLiteralCI_sound {pat cs rest : List Char}
    (h : matchLiteralCI pat cs = some rest) :
    ∃ w, cs = w ++ rest ∧ List.Forall₂ (fun p c => p.toLower = c.toLower) pat w := by
  induction pat generalizing cs with
  | nil =>
    refine ⟨[], ?_, List.Forall₂.nil⟩
    simpa [matchLiteralCI] using h
  | cons p ps ih =>
    cases cs with
    | nil => simp [matchLiteralCI] at h
    | cons c cs =>
      by_cases hc : p.toLower == c.toLower
      · simp only [matchLiteralCI, hc, if_pos] at h
        obtain ⟨w, rfl, hall⟩ := ih h
        exact ⟨c :: w, rfl, List.Forall₂.cons (by simpa using hc) hall⟩
      · simp [matchLiteralCI, hc] at h

theorem forall₂_mem {R : Char → Char → Prop} {as bs : List Char}
    (h : List.Forall₂ R as bs) : ∀ b ∈ bs, ∃ a ∈ as, R a b := by
  induction h with
  | nil => intro b hb; simp at hb
  | cons hr _ ih =>
    intro b hb
    rcases List.mem_cons.mp hb with rfl | hb
    · exact ⟨_, List.mem_cons_self _ _, hr⟩
    · obtain ⟨a, ha, hab⟩ := ih b hb
      exact ⟨a, List.mem_cons_of_mem _ ha, hab⟩

/-!
## C1, C2
-/

/-- C1: when the statement contains a `FETCH FIRST N ROWS ONLY` clause and
the clause-stripped statement contains an `ORDER BY` clause, the rewrite
returns the clause-stripped statement wrapped as
`SELECT * FROM (<stripped>) WHERE ROWNUM <= N`. -/
theorem C1_orderby_wrap (sql pre limit suf : List Char)
    (hfind : findFetchFirst sql = some (pre, limit, suf))
    (horder : containsOrderBy (rstrip pre ++ suf) = true) :
    rewriteFetchFirst sql
      = "SELECT * FROM (".toList ++ (rstrip pre ++ suf) ++ ") WHERE ROWNUM <= ".toList ++ limit := by
  simp [rewriteFetchFirst, hfind, horder, orderByWrap]

set_option maxRecDepth 4000 in
theorem C1_orderby_wrap_witness :
    rewriteFetchFirst "SELECT * FROM T ORDER BY X FETCH FIRST 5 ROWS ONLY".toList
      = "SELECT * FROM (SELECT * FROM T ORDER BY X) WHERE ROWNUM <= 5".toList := by
  have h := C1_orderby_wrap "SELECT * FROM T ORDER BY X FETCH FIRST 5 ROWS ONLY".toList
    "SELECT * FROM T ORDER BY X ".toList "5".toList [] (by decide) (by decide)
  rw [h]; decide

/-- C2: a statement with no `FETCH FIRST <N> ROWS ONLY` clause
(case-insensitively) is returned unchanged. -/
theorem C2_no_fetch_identity (sql : List Char)
    (h : findFetchFirst sql = none) :
    rewriteFetchFirst sql = sql := by
  simp [rewriteFetchFirst, h]

theorem C2_no_fetch_identity_witness :
    rewriteFetchFirst "SELECT * FROM T WHERE A=1".toList = "SELECT * FROM T WHERE A=1".toList :=
  C2_no_fetch_identity "SELECT * FROM T WHERE A=1".toList (by decide)

/-!
## C5 (corrected): the no-injection-point fallback returns the
clause-stripped statement, not the original input.
-/

/-- C5 counterexample: on `SELECT 1 FETCH FIRST 10 ROWS ONLY` (no `ORDER
BY`, no `WHERE`, no recognizable `FROM <table>`) the rewrite does not
return its input: the `FETCH FIRST` clause has already been removed. -/
theorem C5_counterexample :
    ¬ (rewriteFetchFirstStr "SELECT 1 FETCH FIRST 10 ROWS ONLY"
        = "SELECT 1 FETCH FIRST 10 ROWS ONLY") := by decide

theorem subWhereAux_eq_none (limit : List Char) :
    ∀ (cs : List Char) (prev : Option Char), containsWhereAux prev cs = false →
      subWhereAux limit prev cs = none := by
  intro cs
  induction cs with
  | nil => intro prev _; rfl
  | cons c cs ih =>
    intro prev hp
    simp only [containsWhereAux, Bool.or_eq_false_iff] at hp
    simp [subWhereAux, hp.1, ih (some c) hp.2]

/-- C5 (amended): with a `FETCH FIRST N ROWS ONLY` clause present but no
`ORDER BY`, no `WHERE` and no recognizable `FROM <table>` clause, the
rewrite returns the clause-stripped statement (prefix right-stripped,
clause removed, no `ROWNUM` filter injected), leaving the now-unlimited
statement to fail or misbehave at the driver. -/
theorem C5_stripped_passthrough (sql pre limit suf : List Char)
    (hfind : findFetchFirst sql = some (pre, limit, suf))
    (horder : containsOrderBy (rstrip pre ++ suf) = false)
    (hwhere : containsWhere (rstrip pre ++ suf) = false)
    (hfrom : injectAfterFrom limit (rstrip pre ++ suf) = none) :
    rewriteFetchFirst sql = rstrip pre ++ suf := by
  have hsub : subWhere limit (rstrip pre ++ suf) = none :=
    subWhereAux_eq_none limit _ none hwhere
  simp [rewriteFetchFirst, hfind, horder, hsub, hfrom]

set_option maxRecDepth 4000 in
theorem C5_stripped_passthrough_witness :
    rewriteFetchFirst "SELECT 1 FETCH FIRST 10 ROWS ONLY".toList = "SELECT 1".toList := by
  have h := C5_stripped_passthrough "SELECT 1 FETCH FIRST 10 ROWS ONLY".toList
    "SELECT 1 ".toList "10".toList [] (by decide) (by decide) (by decide) (by decide)
  rw [h]; decide

/-!
## C3, C4
-/

theorem subWhereAux_complete (limit : List Char) :
    ∀ (a : List Char) (prev : Option Char) (w b : List Char),
      matchWhereAt (lastOr prev a) (w ++ b) = true →
      w.length = 5 →
      (∀ i, i < a.length → matchWhereAt (lastOr prev (a.take i)) (a.drop i ++ (w ++ b)) = false) →
      subWhereAux limit prev (a ++ (w ++ b)) = some (a ++ (whereInject limit ++ b)) := by
  intro a
  induction a with
  | nil =>
    intro prev w b hw hlen _
    cases w with
    | nil => simp at hlen
    | cons c w' =>
      have hw' : matchWhereAt prev (c :: (w' ++ b)) = true := by
        simpa [lastOr] using hw
      have hdrop : (c :: (w' ++ b)).drop 5 = b := by
        have h2 := List.drop_left (c :: w') b
        rw [hlen] at h2
        simpa using h2
      simp [subWhereAux, hw', hdrop]
  | cons c a ih =>
    intro prev w b hw hlen hmin
    have h0 : matchWhereAt prev (c :: (a ++ (w ++ b))) = false := by
      have := hmin 0 (by simp)
      simpa [lastOr] using this
    have hrec := ih (some c) w b (by simpa [lastOr] using hw) hlen (by
      intro i hi
      have := hmin (i + 1) (by simpa using Nat.succ_lt_succ hi)
      simpa [lastOr] using this)
    simp [subWhereAux, h0, hrec]

/-- C3: when the statement contains a `FETCH FIRST N ROWS ONLY` clause, the
clause-stripped statement has no `ORDER BY` clause, and its first
`\bWHERE\b` keyword occurrence splits it as `a ++ w ++ b`, the rewrite
returns `a ++ "WHERE ROWNUM <= N AND" ++ b`: the `FETCH FIRST` clause is
removed and `ROWNUM <= N AND` is injected immediately after the first
`WHERE` keyword, preserving the remaining predicate `b`. -/
theorem C3_where_inject (sql pre limit suf a w b : List Char)
    (hfind : findFetchFirst sql = some (pre, limit, suf))
    (hsplit : rstrip pre ++ suf = a ++ (w ++ b))
    (hw : matchWhereAt (lastOr none a) (w ++ b) = true)
    (hlen : w.length = 5)
    (hfirst : ∀ i, i < a.length → matchWhereAt (lastOr none (a.take i)) (a.drop i ++ (w ++ b)) = false)
    (horder : containsOrderBy (a ++ (w ++ b)) = false) :
    rewriteFetchFirst sql = a ++ ("WHERE ROWNUM <= ".toList ++ limit ++ " AND".toList) ++ b := by
  have hsub := subWhereAux_complete limit a none w b hw hlen hfirst
  simp [rewriteFetchFirst, hfind, hsplit, horder, subWhere, hsub, whereInject]

set_option maxRecDepth 4000 in
theorem C3_where_inject_witness :
    rewriteFetchFirst "SELECT * FROM T WHERE A=1 FETCH FIRST 3 ROWS ONLY".toList
      = "SELECT * FROM T WHERE ROWNUM <= 3 AND A=1".toList := by
  have h := C3_where_inject "SELECT * FROM T WHERE A=1 FETCH FIRST 3 ROWS ONLY".toList
    "SELECT * FROM T WHERE A=1 ".toList "3".toList [] "SELECT * FROM T ".toList
    "WHERE".toList " A=1".toList (by decide) (by decide) (by decide) (by decide)
    (by decide) (by decide)
  rw [h]; decide

theorem injectAfterFromAux_complete (limit : List Char) :
    ∀ (a : List Char) (prev : Option Char) (m b : List Char),
      matchFromAt (lastOr prev a) (m ++ b) = some m.length →
      (∀ i, i < a.length → matchFromAt (lastOr prev (a.take i)) (a.drop i ++ (m ++ b)) = none) →
      injectAfterFromAux limit prev (a ++ (m ++ b))
        = some (a ++ (m ++ (" WHERE ROWNUM <= ".toList ++ limit ++ b))) := by
  intro a
  induction a with
  | nil =>
    intro prev m b hm _
    cases hmb : m ++ b with
    | nil =>
      rw [hmb] at hm
      simp [matchFromAt, matchLiteralCI, lastOr] at hm
    | cons c rest =>
      have hm' : matchFromAt prev (c :: rest) = some m.length := by
        rw [← hmb]; simpa [lastOr] using hm
      have htake : (c :: rest).take m.length = m := by
        rw [← hmb]; exact List.take_left m b
      have hdrop : (c :: rest).drop m.length = b := by
        rw [← hmb]; exact List.drop_left m b
      simp [injectAfterFromAux, hm', htake, hdrop, List.append_assoc]
  | cons c a ih =>
    intro prev m b hm hmin
    have h0 : matchFromAt prev (c :: (a ++ (m ++ b))) = none := by
      have := hmin 0 (by simp)
      simpa [lastOr] using this
    have hrec := ih (some c) m b (by simpa [lastOr] using hm) (by
      intro i hi
      have := hmin (i + 1) (by simpa using Nat.succ_lt_succ hi)
      simpa [lastOr] using this)
    simp [injectAfterFromAux, h0, hrec]

/-- C4: when the statement contains a `FETCH FIRST N ROWS ONLY` clause and
the clause-stripped statement has neither an `ORDER BY` clause nor a
`WHERE` keyword, but its first `\bFROM\s+([\w\".]+)` match splits it as
`a ++ m ++ b` (`m` being the matched `FROM <table>` reference), the rewrite
returns `a ++ m ++ " WHERE ROWNUM <= N" ++ b`: the clause is removed and a
`WHERE ROWNUM <= N` filter is appended immediately after the table
reference. -/
theorem C4_from_inject (sql pre limit suf a m b : List Char)
    (hfind : findFetchFirst sql = some (pre, limit, suf))
    (hsplit : rstrip pre ++ suf = a ++ (m ++ b))
    (hm : matchFromAt (lastOr none a) (m ++ b) = some m.length)
    (hfirst : ∀ i, i < a.length → matchFromAt (lastOr none (a.take i)) (a.drop i ++ (m ++ b)) = none)
    (horder : containsOrderBy (a ++ (m ++ b)) = false)
    (hwhere : containsWhere (a ++ (m ++ b)) = false) :
    rewriteFetchFirst sql = a ++ m ++ " WHERE ROWNUM <= ".toList ++ limit ++ b := by
  have hsub : subWhereAux limit none (a ++ (m ++ b)) = none :=
    subWhereAux_eq_none limit _ none hwhere
  have hinj := injectAfterFromAux_complete limit a none m b hm hfirst
  simp [rewriteFetchFirst, hfind, hsplit, horder, subWhere, hsub, injectAfterFrom, hinj,
    List.append_assoc]

set_option maxRecDepth 4000 in
theorem C4_from_inject_witness :
    rewriteFetchFirst "SELECT * FROM T FETCH FIRST 10 ROWS ONLY".toList
      = "SELECT * FROM T WHERE ROWNUM <= 10".toList := by
  have h := C4_from_inject "SELECT * FROM T FETCH FIRST 10 ROWS ONLY".toList
    "SELECT * FROM T ".toList "10".toList [] "SELECT * ".toList "FROM T".toList []
    (by decide) (by decide) (by decide) (by decide) (by decide) (by decide)
  rw [h]; decide

/-!
## C6
-/

theorem bytesToHex_length (l : List Nat) : (bytesToHex l).length = 2 * l.length := by
  induction l with
  | nil => rfl
  | cons b bs ih => simp [bytesToHex, ih]; ring

theorem md5Bytes_length (m : List Nat) : (md5Bytes m).length = 16 := by
  simp [md5Bytes, le32]

theorem hexDigit_eq_mod (n : Nat) : hexDigit n = hexDigit (n % 16) := by
  have h : n % 16 % 16 = n % 16 := Nat.mod_mod_of_dvd n (dvd_refl 16)
  simp [hexDigit, h]

theorem hexDigit_isUpperHex (n : Nat) : isUpperHexChar (Char.toUpper (hexDigit n)) = true := by
  rw [hexDigit_eq_mod]
  exact (by decide : ∀ m, m < 16 → isUpperHexChar (Char.toUpper (hexDigit m)) = true)
    (n % 16) (Nat.mod_lt n (by decide))

theorem bytesToHex_chars {l : List Nat} : ∀ c ∈ bytesToHex l, ∃ n, c = hexDigit n := by
  induction l with
  | nil => intro c hc; simp [bytesToHex] at hc
  | cons b bs ih =>
    intro c hc
    simp only [bytesToHex, List.mem_cons] at hc
    rcases hc with rfl | rfl | hc
    · exact ⟨b / 16, rfl⟩
    · exact ⟨b, rfl⟩
    · exact ih c hc

theorem nameSuffix_length (t c : String) : (nameSuffix t c).length = 10 := by
  have h1 : (md5Bytes (utf8Encode (t ++ ":" ++ c))).length = 16 :=
    md5Bytes_length _
  have h2 := bytesToHex_length (md5Bytes (utf8Encode (t ++ ":" ++ c)))
  rw [h1] at h2
  simp [nameSuffix, String.length, List.length_take, h2]

theorem string_eq_of_data {s t : String} (h : s.data = t.data) : s = t := by
  cases s; cases t; exact congrArg String.mk h

/-- C6: the sequence/trigger name generator is a pure deterministic
function of `(table, column)`: identical inputs yield identical name pairs;
the sequence name is `SQ_` followed by the 10-character uppercase hex hash
suffix of `table:column`, the trigger name is `TR_` followed by the same
suffix (10 uppercase hexadecimal characters); and two inputs receive equal
name pairs exactly when their hash suffixes collide. -/
theorem C6_name_generation (t c t2 c2 : String) :
    sequenceAndTriggerNames t c = sequenceAndTriggerNames t c
    ∧ (sequenceAndTriggerNames t c).1 = "SQ_" ++ nameSuffix t c
    ∧ (sequenceAndTriggerNames t c).2 = "TR_" ++ nameSuffix t c
    ∧ (nameSuffix t c).length = 10
    ∧ (∀ ch ∈ (nameSuffix t c).toList, isUpperHexChar ch = true)
    ∧ (sequenceAndTriggerNames t c = sequenceAndTriggerNames t2 c2
        ↔ nameSuffix t c = nameSuffix t2 c2) := by
  refine ⟨rfl, rfl, rfl, nameSuffix_length t c, ?_, ?_⟩
  · intro ch hch
    have hch' : ch ∈ ((bytesToHex (md5Bytes (utf8Encode (t ++ ":" ++ c)))).take 10).map
        Char.toUpper := hch
    obtain ⟨x, hx, rfl⟩ := List.mem_map.mp hch'
    obtain ⟨n, rfl⟩ := bytesToHex_chars x (List.take_subset _ _ hx)
    exact hexDigit_isUpperHex n
  · constructor
    · intro h
      have h1 := congrArg Prod.fst h
      simp only [sequenceAndTriggerNames] at h1
      have h2 := congrArg String.data h1
      rw [String.data_append, String.data_append] at h2
      exact string_eq_of_data (List.append_cancel_left h2)
    · intro h
      simp [sequenceAndTriggerNames, h]

set_option maxRecDepth 200000 in
theorem C6_name_generation_witness :
    (sequenceAndTriggerNames "users" "id").1 = "SQ_" ++ nameSuffix "users" "id"
    ∧ (nameSuffix "users" "id").length = 10
    ∧ nameSuffix "users" "id" = "9C71C15C16"
    ∧ isUpperHexChar '9' = true
    ∧ (sequenceAndTriggerNames "users" "id" = sequenceAndTriggerNames "users" "name"
        ↔ nameSuffix "users" "id" = nameSuffix "users" "name") :=
  ⟨(C6_name_generation "users" "id" "users" "name").2.1,
   (C6_name_generation "users" "id" "users" "name").2.2.2.1,
   by decide,
   (C6_name_generation "users" "id" "users" "name").2.2.2.2.1 '9' (by decide),
   (C6_name_generation "users" "id" "users" "name").2.2.2.2.2⟩

/-!
## C7
-/

theorem createLegacyAutoincrement_ok (st : OracleState) (t c : String) :
    ∃ st1, createLegacyAutoincrement st t c = Except.ok st1 := by
  unfold createLegacyAutoincrement ddlCreateSequence ddlCreateOrReplaceTrigger
  by_cases h : (sequenceAndTriggerNames t c).1 ∈ st.sequences <;>
    simp [h, Bind.bind, Except.bind]

theorem dropLegacyAutoincrement_ok (st : OracleState) (t c : String) :
    ∃ st1, dropLegacyAutoincrement st t c = Except.ok st1 := by
  unfold dropLegacyAutoincrement ddlDropTrigger ddlDropSequence suppressCode
  by_cases h1 : (sequenceAndTriggerNames t c).2 ∈ st.triggers <;>
    by_cases h2 : (sequenceAndTriggerNames t c).1 ∈ st.sequences <;>
      simp [h1, h2, Bind.bind, Except.bind]

theorem createThenDrop_ok (st : OracleState) (t c : String) :
    ∃ st1, createThenDrop st t c = Except.ok st1 := by
  obtain ⟨s1, h1⟩ := createLegacyAutoincrement_ok st t c
  obtain ⟨s2, h2⟩ := dropLegacyAutoincrement_ok s1 t c
  exact ⟨s2, by simp [createThenDrop, Bind.bind, Except.bind, h1, h2]⟩

/-- C7: from any catalog state, `create` then `drop` of the legacy
autoincrement emulation succeeds, and repeating the create/drop pair a
second time succeeds as well (`create` guards sequence creation behind an
existence check and uses `CREATE OR REPLACE` for the trigger; `drop`
swallows exactly ORA-04080 and ORA-02289); moreover the drop blocks'
exception filter re-raises every other error code. -/
theorem C7_create_drop_idempotent (st : OracleState) (t c : String) (e : Int)
    (fallback : OracleState) (he : e ≠ -4080) :
    (∃ st2, createDropTwice st t c = Except.ok st2)
    ∧ suppressCode (-4080) fallback (Except.error e) = Except.error e := by
  constructor
  · obtain ⟨s1, h1⟩ := createThenDrop_ok st t c
    obtain ⟨s2, h2⟩ := createThenDrop_ok s1 t c
    exact ⟨s2, by simp [createDropTwice, Bind.bind, Except.bind, h1, h2]⟩
  · simp [suppressCode, he]

theorem C7_create_drop_idempotent_witness :
    (∃ st2, createDropTwice { sequences := [], triggers := [] } "users" "id" = Except.ok st2)
    ∧ suppressCode (-4080) { sequences := [], triggers := [] } (Except.error (-942))
        = Except.error (-942) :=
  C7_create_drop_idempotent { sequences := [], triggers := [] } "users" "id" (-942)
    { sequences := [], triggers := [] } (by decide)

/-!
## C9
-/

set_option maxRecDepth 40000 in
/-- C9: the trigger DDL emitted by `_create_legacy_autoincrement` declares
a `BEFORE INSERT` trigger on the quoted table, `FOR EACH ROW`, guarded by
`WHEN (new.<column> IS NULL)`, whose body assigns the sequence's `NEXTVAL`
into the new row's column — and, under the modelled row-trigger semantics,
an insert supplying a non-null value keeps the supplied value while a null
value receives the sequence value. -/
theorem C9_trigger_ddl (t c : String) :
    (∃ l r, createTriggerSQL t c
        = l ++ ("BEFORE INSERT ON ".toList ++ (quoteName t).toList) ++ r)
    ∧ (∃ l r, createTriggerSQL t c = l ++ "FOR EACH ROW".toList ++ r)
    ∧ (∃ l r, createTriggerSQL t c
        = l ++ ("WHEN (new.".toList ++ c.toList ++ " IS NULL)".toList) ++ r)
    ∧ (∃ l r, createTriggerSQL t c
        = l ++ ("SELECT ".toList
            ++ (quoteName (sequenceAndTriggerNames t c).1).toList
            ++ ".NEXTVAL INTO :new.".toList ++ (quoteName c).toList) ++ r)
    ∧ (∀ s v, triggerAssign s (some v) = some v)
    ∧ (∀ s, triggerAssign s none = some s) := by
  refine ⟨⟨"\n            ".toList ++ "CREATE OR REPLACE TRIGGER ".toList
      ++ (quoteName (sequenceAndTriggerNames t c).2).toList ++ "\n            ".toList, ?_, ?_⟩,
    ⟨"\n            ".toList ++ "CREATE OR REPLACE TRIGGER ".toList
      ++ (quoteName (sequenceAndTriggerNames t c).2).toList ++ "\n            ".toList
      ++ "BEFORE INSERT ON ".toList ++ (quoteName t).toList ++ "\n            ".toList, ?_, ?_⟩,
    ?_, ?_, fun _ _ => rfl, fun _ => rfl⟩
  · exact "\n            ".toList ++ "FOR EACH ROW".toList ++ "\n            ".toList
      ++ "WHEN (new.".toList ++ c.toList ++ " IS NULL)".toList
      ++ "\n            BEGIN\n                ".toList ++ "SELECT ".toList
      ++ (quoteName (sequenceAndTriggerNames t c).1).toList ++ ".NEXTVAL INTO :new.".toList
      ++ (quoteName c).toList ++ " FROM dual;".toList ++ "\n            END;\n            ".toList
  · simp [createTriggerSQL]
  · exact "\n            ".toList ++ "WHEN (new.".toList ++ c.toList ++ " IS NULL)".toList
      ++ "\n            BEGIN\n                ".toList ++ "SELECT ".toList
      ++ (quoteName (sequenceAndTriggerNames t c).1).toList ++ ".NEXTVAL INTO :new.".toList
      ++ (quoteName c).toList ++ " FROM dual;".toList ++ "\n            END;\n            ".toList
  · simp [createTriggerSQL]
  · refine ⟨"\n            ".toList ++ "CREATE OR REPLACE TRIGGER ".toList
      ++ (quoteName (sequenceAndTriggerNames t c).2).toList ++ "\n            ".toList
      ++ "BEFORE INSERT ON ".toList ++ (quoteName t).toList ++ "\n            ".toList
      ++ "FOR EACH ROW".toList ++ "\n            ".toList,
      "\n            BEGIN\n                ".toList ++ "SELECT ".toList
      ++ (quoteName (sequenceAndTriggerNames t c).1).toList ++ ".NEXTVAL INTO :new.".toList
      ++ (quoteName c).toList ++ " FROM dual;".toList ++ "\n            END;\n            ".toList,
      ?_⟩
    simp [createTriggerSQL]
  · refine ⟨"\n            ".toList ++ "CREATE OR REPLACE TRIGGER ".toList
      ++ (quoteName (sequenceAndTriggerNames t c).2).toList ++ "\n            ".toList
      ++ "BEFORE INSERT ON ".toList ++ (quoteName t).toList ++ "\n            ".toList
      ++ "FOR EACH ROW".toList ++ "\n            ".toList
      ++ "WHEN (new.".toList ++ c.toList ++ " IS NULL)".toList
      ++ "\n            BEGIN\n                ".toList,
      " FROM dual;".toList ++ "\n            END;\n            ".toList, ?_⟩
    simp [createTriggerSQL]

/-!
## C10
-/

theorem json_loads_type (loads : JsonParser) (raw : Option String) (fb : PyJson) :
    pyTypeOf (json_loads loads raw fb) = pyTypeOf fb := by
  unfold json_loads
  cases loads (rawOrEmpty raw) with
  | error e => rfl
  | ok v =>
    by_cases h : pyTypeOf v = pyTypeOf fb <;> simp [h]

/-- C10: every JSON-blob getter on `UserProfile` is total and type-stable
for every possible parser outcome: the result of each getter always has
the runtime type of its documented default (`list` or `dict`), and
`_json_loads` returns the fallback whenever the parse raises or produces a
value of a different type. -/
theorem C10_json_getters_total (loads : JsonParser) (p : UserProfile)
    (raw : Option String) (fb : PyJson) :
    pyTypeOf (UserProfile.get_interests loads p) = PyType.listType
    ∧ pyTypeOf (UserProfile.get_preferences loads p) = PyType.dictType
    ∧ pyTypeOf (UserProfile.get_performance loads p) = PyType.dictType
    ∧ pyTypeOf (UserProfile.get_completed_courses loads p) = PyType.listType
    ∧ pyTypeOf (UserProfile.get_earned_certifications loads p) = PyType.listType
    ∧ (∀ e, loads (rawOrEmpty raw) = Except.error e → json_loads loads raw fb = fb)
    ∧ (∀ v, loads (rawOrEmpty raw) = Except.ok v → pyTypeOf v ≠ pyTypeOf fb →
        json_loads loads raw fb = fb) := by
  refine ⟨json_loads_type loads _ _, json_loads_type loads _ _, json_loads_type loads _ _,
    json_loads_type loads _ _, json_loads_type loads _ _, ?_, ?_⟩
  · intro e he
    simp [json_loads, he]
  · intro v hv hne
    simp [json_loads, hv, hne]

/-- A parser that always raises (every input is malformed). -/
def failingParser : JsonParser := fun _ => Except.error ()

/-- A fixed profile row holding malformed JSON text. -/
def sampleProfile : UserProfile :=
  { name := "u", email := "u@example.com", password := "x"
    interests_data := some "not json"
    preferences_data := none
    performance_data := some ""
    completed_courses_data := some "\x7b\x7d"
    earned_certifications_data := some "[1, 2" }

theorem C10_json_getters_total_witness :
    pyTypeOf (UserProfile.get_interests failingParser sampleProfile) = PyType.listType
    ∧ json_loads failingParser (some "not json") (PyJson.listVal []) = PyJson.listVal [] :=
  ⟨(C10_json_getters_total failingParser sampleProfile (some "not json")
      (PyJson.listVal [])).1,
   (C10_json_getters_total failingParser sampleProfile (some "not json")
      (PyJson.listVal [])).2.2.2.2.2.1 () rfl⟩

/-!
## C8
-/

theorem countPS_append (xs ys : List Char) :
    countPS (xs ++ ys) = countPS xs + psJunction xs ys + countPS ys := by
  induction xs with
  | nil => simp [countPS, psJunction]
  | cons a xs ih =>
    cases xs with
    | nil =>
      cases ys with
      | nil => simp [countPS, psJunction]
      | cons b ys' =>
        simp only [List.singleton_append, countPS, psJunction, List.getLast?_singleton,
          List.head?_cons, Option.some.injEq]
        split <;> omega
    | cons a2 xs' =>
      simp only [List.cons_append, countPS, psJunction, List.getLast?_cons_cons,
        List.append_eq] at *
      rw [ih]
      omega

theorem countPS_zero {l : List Char} (h : ∀ c ∈ l, c ≠ '%') : countPS l = 0 := by
  induction l with
  | nil => rfl
  | cons a l ih =>
    cases l with
    | nil => rfl
    | cons b l' =>
      have ha : a ≠ '%' := h a (by simp)
      have hrest : ∀ c ∈ b :: l', c ≠ '%' := fun c hc => h c (List.mem_cons_of_mem _ hc)
      simp [countPS, ha, ih hrest]

theorem psJunction_zero_left {xs ys : List Char} (h : ∀ c ∈ xs, c ≠ '%') :
    psJunction xs ys = 0 := by
  unfold psJunction
  cases hx : xs.getLast? with
  | none => simp
  | some x =>
    have hx' := h x (getLast?_mem_list hx)
    simp [hx']

theorem psJunction_zero_left_getLast {xs ys : List Char} {x : Char}
    (hx : xs.getLast? = some x) (h : x ≠ '%') : psJunction xs ys = 0 := by
  simp [psJunction, hx, h]

theorem psJunction_zero_right {xs ys : List Char} (c : Char) (hh : ys.head? = some c)
    (hc : c ≠ 's') : psJunction xs ys = 0 := by
  simp [psJunction, hh, hc]

theorem psJunction_nil_right (xs : List Char) : psJunction xs [] = 0 := by
  simp [psJunction]

theorem forall₂_no_pct {pat w : List Char}
    (hall : List.Forall₂ (fun p c => p.toLower = c.toLower) pat w)
    (hp : ∀ p ∈ pat, p.toLower ≠ '%') : ∀ c ∈ w, c ≠ '%' := by
  intro c hc hceq
  obtain ⟨p, hpm, hpc⟩ := forall₂_mem hall c hc
  subst hceq
  exact hp p hpm (hpc.trans (by decide))

theorem forall₂_head_ne {p : Char} {ps w : List Char}
    (hall : List.Forall₂ (fun p c => p.toLower = c.toLower) (p :: ps) w)
    (hp : p.toLower ≠ 's') : ∃ c w', w = c :: w' ∧ c ≠ 's' := by
  cases hall with
  | cons hr htail =>
    refine ⟨_, _, rfl, fun hceq => hp ?_⟩
    subst hceq
    exact hr.trans (by decide)

theorem digits_no_pct {l : List Char} (h : ∀ d ∈ l, d.isDigit = true) :
    ∀ c ∈ l, c ≠ '%' := by
  intro c hc hceq
  subst hceq
  exact absurd (h _ hc) (by decide)

theorem matchFetchAt_sound {cs digits suf : List Char}
    (h : matchFetchAt cs = some (digits, suf)) :
    ∃ w1 w2, cs = w1 ++ (digits ++ (w2 ++ suf))
      ∧ List.Forall₂ (fun p c => p.toLower = c.toLower) "FETCH FIRST ".toList w1
      ∧ digits ≠ [] ∧ (∀ d ∈ digits, d.isDigit = true)
      ∧ List.Forall₂ (fun p c => p.toLower = c.toLower) " ROWS ONLY".toList w2 := by
  unfold matchFetchAt at h
  cases h1 : matchLiteralCI "FETCH FIRST ".toList cs with
  | none => rw [h1] at h; simp at h
  | some rest =>
    rw [h1] at h
    simp only at h
    by_cases hd : (rest.takeWhile Char.isDigit).isEmpty
    · rw [if_pos hd] at h; simp at h
    · rw [if_neg hd] at h
      cases h2 : matchLiteralCI " ROWS ONLY".toList (rest.dropWhile Char.isDigit) with
      | none => rw [h2] at h; simp at h
      | some rest2 =>
        rw [h2] at h
        simp only [Option.some.injEq, Prod.mk.injEq] at h
        obtain ⟨rfl, rfl⟩ := h
        obtain ⟨w1, rfl, hall1⟩ := matchLiteralCI_sound h1
        obtain ⟨w2, hrest1, hall2⟩ := matchLiteralCI_sound h2
        refine ⟨w1, w2, ?_, hall1, ?_, ?_, hall2⟩
        · rw [← hrest1, List.takeWhile_append_dropWhile]
        · simpa [List.isEmpty_iff] using hd
        · intro d hdmem; exact List.mem_takeWhile_imp hdmem

theorem findFetchFirst_sound {sql pre digits suf : List Char}
    (h : findFetchFirst sql = some (pre, digits, suf)) :
    ∃ w1 w2, sql = pre ++ (w1 ++ (digits ++ (w2 ++ suf)))
      ∧ List.Forall₂ (fun p c => p.toLower = c.toLower) "FETCH FIRST ".toList w1
      ∧ digits ≠ [] ∧ (∀ d ∈ digits, d.isDigit = true)
      ∧ List.Forall₂ (fun p c => p.toLower = c.toLower) " ROWS ONLY".toList w2 := by
  induction sql generalizing pre with
  | nil => simp [findFetchFirst] at h
  | cons ch cs ih =>
    unfold findFetchFirst at h
    cases hm : matchFetchAt (ch :: cs) with
    | some p =>
      obtain ⟨d, s⟩ := p
      rw [hm] at h
      simp only [Option.some.injEq, Prod.mk.injEq] at h
      obtain ⟨rfl, rfl, rfl⟩ := h
      obtain ⟨w1, w2, heq, hall1, hne, hdig, hall2⟩ := matchFetchAt_sound hm
      exact ⟨w1, w2, by simpa using heq, hall1, hne, hdig, hall2⟩
    | none =>
      rw [hm] at h
      cases hf : findFetchFirst cs with
      | none => rw [hf] at h; simp at h
      | some q =>
        rw [hf] at h
        obtain ⟨p1, p2, p3⟩ := q
        simp only [Option.some.injEq, Prod.mk.injEq] at h
        obtain ⟨rfl, rfl, rfl⟩ := h
        obtain ⟨w1, w2, heq, hall1, hne, hdig, hall2⟩ := ih hf
        exact ⟨w1, w2, by simp [heq], hall1, hne, hdig, hall2⟩

theorem rstrip_decomp (l : List Char) :
    ∃ t, l = rstrip l ++ t ∧ ∀ c ∈ t, isSpaceChar c = true := by
  refine ⟨(l.reverse.takeWhile isSpaceChar).reverse, ?_, ?_⟩
  · have h1 : l.reverse.takeWhile isSpaceChar ++ l.reverse.dropWhile isSpaceChar = l.reverse :=
      List.takeWhile_append_dropWhile _ _
    have h2 := congrArg List.reverse h1
    rw [List.reverse_append, List.reverse_reverse] at h2
    exact h2.symm
  · intro c hc
    exact List.mem_takeWhile_imp (List.mem_reverse.mp hc)

theorem subWhereAux_sound (limit : List Char) :
    ∀ (cs : List Char) (prev : Option Char) (out : List Char),
      subWhereAux limit prev cs = some out →
      ∃ a w b, cs = a ++ (w ++ b) ∧ out = a ++ (whereInject limit ++ b)
        ∧ List.Forall₂ (fun p c => p.toLower = c.toLower) "WHERE".toList w := by
  intro cs
  induction cs with
  | nil => intro prev out h; simp [subWhereAux] at h
  | cons c cs ih =>
    intro prev out h
    by_cases hm : matchWhereAt prev (c :: cs)
    · rw [subWhereAux, if_pos hm] at h
      simp only [Option.some.injEq] at h
      unfold matchWhereAt at hm
      rw [Bool.and_eq_true] at hm
      obtain ⟨-, hm2⟩ := hm
      cases h2 : matchLiteralCI "WHERE".toList (c :: cs) with
      | none => rw [h2] at hm2; simp at hm2
      | some rest =>
        obtain ⟨w, hw, hall⟩ := matchLiteralCI_sound h2
        have hwlen : w.length = 5 := by
          have := hall.length_eq
          simpa using this.symm
        refine ⟨[], w, rest, by simpa using hw, ?_, hall⟩
        rw [← h]
        have hdrop : (c :: cs).drop 5 = rest := by
          rw [hw, ← hwlen, List.drop_left]
        rw [hdrop]
        simp
    · rw [subWhereAux, if_neg hm] at h
      cases hr : subWhereAux limit (some c) cs with
      | none => rw [hr] at h; simp at h
      | some out' =>
        rw [hr] at h
        simp only [Option.some.injEq] at h
        obtain ⟨a, w, b, hcs, hout, hall⟩ := ih (some c) out' hr
        exact ⟨c :: a, w, b, by simp [hcs], by simp [← h, hout], hall⟩

theorem injectAfterFromAux_sound (limit : List Char) :
    ∀ (cs : List Char) (prev : Option Char) (out : List Char),
      injectAfterFromAux limit prev cs = some out →
      ∃ a b, cs = a ++ b ∧ out = a ++ (" WHERE ROWNUM <= ".toList ++ (limit ++ b))
        ∧ ∃ x, a.getLast? = some x ∧ isFromTableChar x = true := by
  intro cs
  induction cs with
  | nil => intro prev out h; simp [injectAfterFromAux] at h
  | cons c cs ih =>
    intro prev out h
    unfold injectAfterFromAux at h
    cases hm : matchFromAt prev (c :: cs) with
    | some len =>
      rw [hm] at h
      simp only [Option.some.injEq] at h
      unfold matchFromAt at hm
      by_cases hb : !boundaryBefore prev
      · rw [if_pos hb] at hm; simp at hm
      · rw [if_neg hb] at hm
        cases h2 : matchLiteralCI "FROM".toList (c :: cs) with
        | none => rw [h2] at hm; simp at hm
        | some rest =>
          rw [h2] at hm
          simp only at hm
          by_cases hws : (rest.takeWhile isSpaceChar).isEmpty
          · rw [if_pos hws] at hm; simp at hm
          · rw [if_neg hws] at hm
            by_cases htb : ((rest.dropWhile isSpaceChar).takeWhile isFromTableChar).isEmpty
            · rw [if_pos htb] at hm; simp at hm
            · rw [if_neg htb] at hm
              simp only [Option.some.injEq] at hm
              obtain ⟨w1, hw1, hall1⟩ := matchLiteralCI_sound h2
              have hw1len : w1.length = 4 := by
                have := hall1.length_eq
                simpa using this.symm
              set ws := rest.takeWhile isSpaceChar with hws_def
              set tbl := (rest.dropWhile isSpaceChar).takeWhile isFromTableChar with htbl_def
              set rest2 := (rest.dropWhile isSpaceChar).dropWhile isFromTableChar with hrest2_def
              have hrest : rest = ws ++ (tbl ++ rest2) := by
                rw [hws_def, htbl_def, hrest2_def,
                  List.takeWhile_append_dropWhile, List.takeWhile_append_dropWhile]
              have hcs2 : c :: cs = (w1 ++ ws ++ tbl) ++ rest2 := by
                rw [hw1, hrest]; simp [List.append_assoc]
              have hlen : len = (w1 ++ ws ++ tbl).length := by
                simp [← hm, hw1len]; omega
              have htbl_ne : tbl ≠ [] := by
                simpa [List.isEmpty_iff] using htb
              have htake : (c :: cs).take len = w1 ++ ws ++ tbl := by
                rw [hcs2, hlen, List.take_left]
              have hdrop : (c :: cs).drop len = rest2 := by
                rw [hcs2, hlen, List.drop_left]
              refine ⟨w1 ++ ws ++ tbl, rest2, by simpa using hcs2, ?_, ?_⟩
              · rw [← h, htake, hdrop]
                simp [List.append_assoc]
              · have hgl : (w1 ++ ws ++ tbl).getLast? = tbl.getLast? :=
                  List.getLast?_append_of_ne_nil _ htbl_ne
                cases hx : tbl.getLast? with
                | none => exact absurd (List.getLast?_eq_none_iff.mp hx) htbl_ne
                | some x =>
                  refine ⟨x, by rw [hgl, hx], ?_⟩
                  have hxm := getLast?_mem_list hx
                  exact List.mem_takeWhile_imp hxm
    | none =>
      rw [hm] at h
      cases hr : injectAfterFromAux limit (some c) cs with
      | none => rw [hr] at h; simp at h
      | some out' =>
        rw [hr] at h
        simp only [Option.some.injEq] at h
        obtain ⟨a, b, hcs, hout, x, hx, hxc⟩ := ih (some c) out' hr
        have ha_ne : a ≠ [] := by
          intro hnil
          rw [hnil] at hx
          simp at hx
        obtain ⟨a1, a', rfl⟩ : ∃ a1 a', a = a1 :: a' := by
          cases a with
          | nil => exact absurd rfl ha_ne
          | cons a1 a' => exact ⟨a1, a', rfl⟩
        refine ⟨c :: a1 :: a', b, by simp [hcs], by simp [← h, hout], x, ?_, hxc⟩
        rw [List.getLast?_cons_cons]
        exact hx

theorem countPS_orderByWrap (limit sql1 : List Char) (hd : ∀ d ∈ limit, d.isDigit = true) :
    countPS (orderByWrap limit sql1) = countPS sql1 := by
  have hre : orderByWrap limit sql1
      = "SELECT * FROM (".toList ++ (sql1 ++ (") WHERE ROWNUM <= ".toList ++ limit)) := by
    simp [orderByWrap, List.append_assoc]
  rw [hre, countPS_append, countPS_append, countPS_append]
  have e1 : countPS "SELECT * FROM (".toList = 0 := countPS_zero (by decide)
  have e2 : psJunction "SELECT * FROM (".toList
      (sql1 ++ (") WHERE ROWNUM <= ".toList ++ limit)) = 0 :=
    psJunction_zero_left (by decide)
  have e3 : psJunction sql1 (") WHERE ROWNUM <= ".toList ++ limit) = 0 :=
    psJunction_zero_right ')' rfl (by decide)
  have e4 : countPS ") WHERE ROWNUM <= ".toList = 0 := countPS_zero (by decide)
  have e5 : psJunction ") WHERE ROWNUM <= ".toList limit = 0 := psJunction_zero_left (by decide)
  have e6 : countPS limit = 0 := countPS_zero (digits_no_pct hd)
  omega

theorem countPS_whereBranch (limit a w b : List Char)
    (hall : List.Forall₂ (fun p c => p.toLower = c.toLower) "WHERE".toList w)
    (hd : ∀ d ∈ limit, d.isDigit = true) :
    countPS (a ++ (whereInject limit ++ b)) = countPS (a ++ (w ++ b)) := by
  have hw_no : ∀ c ∈ w, c ≠ '%' := forall₂_no_pct hall (by decide)
  obtain ⟨wc, w', rfl, hwc⟩ := forall₂_head_ne hall (by decide)
  have L : countPS (a ++ (whereInject limit ++ b)) = countPS a + countPS b := by
    rw [countPS_append]
    have h1 : psJunction a (whereInject limit ++ b) = 0 :=
      psJunction_zero_right 'W' rfl (by decide)
    have h2 : countPS (whereInject limit ++ b) = countPS b := by
      have hinj : whereInject limit ++ b
          = "WHERE ROWNUM <= ".toList ++ (limit ++ (" AND".toList ++ b)) := by
        simp [whereInject, List.append_assoc]
      rw [hinj, countPS_append, countPS_append, countPS_append]
      have e1 : countPS "WHERE ROWNUM <= ".toList = 0 := countPS_zero (by decide)
      have e2 : psJunction "WHERE ROWNUM <= ".toList (limit ++ (" AND".toList ++ b)) = 0 :=
        psJunction_zero_left (by decide)
      have e3 : psJunction limit (" AND".toList ++ b) = 0 :=
        psJunction_zero_right ' ' rfl (by decide)
      have e4 : countPS limit = 0 := countPS_zero (digits_no_pct hd)
      have e5 : countPS " AND".toList = 0 := countPS_zero (by decide)
      have e6 : psJunction " AND".toList b = 0 := psJunction_zero_left (by decide)
      omega
    omega
  have R : countPS (a ++ ((wc :: w') ++ b)) = countPS a + countPS b := by
    rw [countPS_append, countPS_append]
    have h1 : psJunction a ((wc :: w') ++ b) = 0 :=
      psJunction_zero_right wc (by simp) hwc
    have h2 : countPS (wc :: w') = 0 := countPS_zero hw_no
    have h3 : psJunction (wc :: w') b = 0 := psJunction_zero_left hw_no
    omega
  rw [L, R]

theorem countPS_fromBranch (limit a b : List Char) {x : Char}
    (hx : a.getLast? = some x) (hxc : isFromTableChar x = true)
    (hd : ∀ d ∈ limit, d.isDigit = true) (hne : limit ≠ []) :
    countPS (a ++ (" WHERE ROWNUM <= ".toList ++ (limit ++ b))) = countPS (a ++ b) := by
  have hxp : x ≠ '%' := by
    intro hceq
    subst hceq
    exact absurd hxc (by decide)
  have hlim_no : ∀ c ∈ limit, c ≠ '%' := digits_no_pct hd
  have hjl : psJunction limit b = 0 := by
    cases hgl : limit.getLast? with
    | none => exact absurd (List.getLast?_eq_none_iff.mp hgl) hne
    | some d =>
      exact psJunction_zero_left_getLast hgl (hlim_no d (getLast?_mem_list hgl))
  rw [countPS_append, countPS_append, countPS_append, countPS_append]
  have h1 : psJunction a (" WHERE ROWNUM <= ".toList ++ (limit ++ b)) = 0 :=
    psJunction_zero_right ' ' rfl (by decide)
  have h2 : countPS " WHERE ROWNUM <= ".toList = 0 := countPS_zero (by decide)
  have h3 : psJunction " WHERE ROWNUM <= ".toList (limit ++ b) = 0 :=
    psJunction_zero_left (by decide)
  have h4 : countPS limit = 0 := countPS_zero hlim_no
  have h5 : psJunction a b = 0 := psJunction_zero_left_getLast hx hxp
  omega

/-- C8 (amended): `execute` and `executemany` forward the parameter
bindings to the wrapped driver cursor unmodified; when a `FETCH FIRST`
clause is matched, the injected limit is its non-empty all-digit group
taken from the statement text; and the rewrite preserves the number (and
hence, placeholders being the identical token `%s`, the relative order) of
bind placeholders — both when no clause is present and, when one is
removed, provided stripping it does not butt a `%` at the end of the
clause-stripped prefix against an `s` at the start of the suffix
(`psJunction (rstrip pre) suf = 0`). -/
theorem C8_params_placeholders {α : Type} (sql : List Char) (params : Option (List α))
    (paramList : List (List α)) (pre limit suf : List Char) :
    (OracleCursorWrapper.execute sql params).2 = params
    ∧ (OracleCursorWrapper.executemany sql paramList).2 = paramList
    ∧ (findFetchFirst sql = none → countPS (rewriteFetchFirst sql) = countPS sql)
    ∧ (findFetchFirst sql = some (pre, limit, suf) →
        limit ≠ [] ∧ (∀ d ∈ limit, d.isDigit = true))
    ∧ (findFetchFirst sql = some (pre, limit, suf) →
        psJunction (rstrip pre) suf = 0 →
        countPS (rewriteFetchFirst sql) = countPS sql) := by
  refine ⟨rfl, rfl, ?_, ?_, ?_⟩
  · intro h
    simp [rewriteFetchFirst, h]
  · intro h
    obtain ⟨w1, w2, _, _, hne, hdig, _⟩ := findFetchFirst_sound h
    exact ⟨hne, hdig⟩
  · intro h hj
    obtain ⟨w1, w2, heq, hall1, hne, hdig, hall2⟩ := findFetchFirst_sound h
    have hw2_no : ∀ c ∈ w2, c ≠ '%' := forall₂_no_pct hall2 (by decide)
    have hlim_no : ∀ c ∈ limit, c ≠ '%' := digits_no_pct hdig
    have hw1_no : ∀ c ∈ w1, c ≠ '%' := forall₂_no_pct hall1 (by decide)
    obtain ⟨f, w1', rfl, hf⟩ := forall₂_head_ne hall1 (by decide)
    obtain ⟨t, hpre, hts⟩ := rstrip_decomp pre
    have ht_no : ∀ c ∈ t, c ≠ '%' := by
      intro c hc hceq
      subst hceq
      exact absurd (hts _ hc) (by decide)
    have hjt : psJunction (rstrip pre) t = 0 := by
      cases t with
      | nil => exact psJunction_nil_right _
      | cons c t' =>
        refine psJunction_zero_right c (by simp) ?_
        intro hceq
        subst hceq
        exact absurd (hts 's' (by simp)) (by decide)
    have hpre_count : countPS pre = countPS (rstrip pre) := by
      conv_lhs => rw [hpre]
      rw [countPS_append, hjt, countPS_zero ht_no]
      omega
    have hsql : countPS sql = countPS (rstrip pre) + countPS suf := by
      rw [heq, countPS_append, countPS_append, countPS_append, countPS_append]
      have j1 : psJunction pre ((f :: w1') ++ (limit ++ (w2 ++ suf))) = 0 :=
        psJunction_zero_right f (by simp) hf
      have c1 : countPS (f :: w1') = 0 := countPS_zero hw1_no
      have j2 : psJunction (f :: w1') (limit ++ (w2 ++ suf)) = 0 :=
        psJunction_zero_left hw1_no
      have c2 : countPS limit = 0 := countPS_zero hlim_no
      have j3 : psJunction limit (w2 ++ suf) = 0 := psJunction_zero_left hlim_no
      have c3 : countPS w2 = 0 := countPS_zero hw2_no
      have j4 : psJunction w2 suf = 0 := psJunction_zero_left hw2_no
      omega
    have hsql1 : countPS (rstrip pre ++ suf) = countPS sql := by
      rw [countPS_append, hj, hsql]
      omega
    simp only [rewriteFetchFirst, h]
    cases hob : containsOrderBy (rstrip pre ++ suf) with
    | true =>
      simp only [hob, if_true]
      rw [countPS_orderByWrap _ _ hdig, hsql1]
    | false =>
      simp only [hob, Bool.false_eq_true, if_false]
      cases hsw : subWhere limit (rstrip pre ++ suf) with
      | some out =>
        simp only [hsw]
        obtain ⟨a, w, b, hcs, hout, hall⟩ := subWhereAux_sound limit _ none out hsw
        rw [hout, countPS_whereBranch limit a w b hall hdig, ← hcs, hsql1]
      | none =>
        simp only [hsw]
        cases hif : injectAfterFrom limit (rstrip pre ++ suf) with
        | some out =>
          simp only [hif]
          obtain ⟨a, b, hcs, hout, x, hx, hxc⟩ :=
            injectAfterFromAux_sound limit _ none out hif
          rw [hout, countPS_fromBranch limit a b hx hxc hdig hne, ← hcs, hsql1]
        | none =>
          simp only [hif]
          exact hsql1

/-- C8 counterexample: the removal of the `FETCH FIRST` clause can create
a new `%s` bind placeholder out of adjacent characters, so the rewrite
does not preserve the placeholder count on every statement. -/
theorem C8_counterexample :
    ¬ (countPS (rewriteFetchFirst "SELECT a FROM t WHERE x=1 %FETCH FIRST 5 ROWS ONLYs".toList)
        = countPS "SELECT a FROM t WHERE x=1 %FETCH FIRST 5 ROWS ONLYs".toList) := by decide

set_option maxRecDepth 4000 in
theorem C8_params_placeholders_witness :
    (OracleCursorWrapper.execute "SELECT * FROM T WHERE A=1 FETCH FIRST 3 ROWS ONLY".toList
        (some [(1 : Nat)])).2 = some [(1 : Nat)]
    ∧ countPS (rewriteFetchFirst "SELECT * FROM T WHERE A=1 FETCH FIRST 3 ROWS ONLY".toList)
        = countPS "SELECT * FROM T WHERE A=1 FETCH FIRST 3 ROWS ONLY".toList := by
  have h := C8_params_placeholders
    "SELECT * FROM T WHERE A=1 FETCH FIRST 3 ROWS ONLY".toList (some [(1 : Nat)])
    ([] : List (List Nat))
    "SELECT * FROM T WHERE A=1 ".toList "3".toList []
  exact ⟨h.1, h.2.2.2.2 (by decide) (by decide)⟩
